import Mathlib

/-!
# TransactionAnalyzer (src/ind1/index.js)

A shallow embedding of the `TransactionAnalyzer` class: the transaction list is a
`List Transaction`, every method is a function of that list.

Modelling conventions
* A JavaScript number that can be `NaN` or infinite is a `JsNum`; finite values are exact
  rationals (IEEE-754 rounding and the sign of zero are not modelled).
* `new Date(s)` is a `JsDate`: either `Invalid Date` or a time value together with the local
  calendar fields read by `getFullYear`, `getMonth` and `getDate`.
* A record stores the values its fields denote: `transaction_amount` is the result of
  `parseFloat(t.transaction_amount)` and `transaction_date` the result of
  `new Date(t.transaction_date)`.
* A plain object used as a counter table is a `JsObj`: an association list in property
  creation order. `undefined` is `none`.
* A thrown exception is `Except.error`.
* Counter objects are read only at the keys the class writes (`debit`, `credit`, month
  numbers, `NaN`), none of which is inherited from `Object.prototype`.
-/

namespace TransactionAnalyzer

/-! ## JavaScript values -/

/-- A JavaScript number: `NaN`, the two infinities, or a finite value. -/
inductive JsNum where
  | nan
  | posInf
  | negInf
  | fin (q : ℚ)
  deriving DecidableEq

namespace JsNum

/-- The `+` operator on numbers. -/
def add : JsNum → JsNum → JsNum
  | nan, _ => nan
  | _, nan => nan
  | posInf, negInf => nan
  | negInf, posInf => nan
  | posInf, _ => posInf
  | _, posInf => posInf
  | negInf, _ => negInf
  | _, negInf => negInf
  | fin a, fin b => fin (a + b)

/-- The `>=` operator on numbers (false as soon as one side is `NaN`). -/
def ge : JsNum → JsNum → Bool
  | nan, _ => false
  | _, nan => false
  | posInf, _ => true
  | _, negInf => true
  | negInf, _ => false
  | _, posInf => false
  | fin a, fin b => decide (b ≤ a)

/-- The `<=` operator on numbers. -/
def le (a b : JsNum) : Bool := ge b a

instance : Zero JsNum := ⟨fin 0⟩

instance : Add JsNum := ⟨add⟩

end JsNum

/-- The value of `new Date(s)`: `Invalid Date`, or a time value in milliseconds with the local
calendar fields (`month` is zero-based, as `getMonth` returns it). -/
inductive JsDate where
  | invalid
  | valid (time : Int) (fullYear : Int) (month : Fin 12) (date : Nat)
  deriving DecidableEq

namespace JsDate

/-- The time value, `none` standing for `NaN`. -/
def valueOf : JsDate → Option Int
  | invalid => none
  | valid t _ _ _ => some t

/-- `getFullYear()`, `none` standing for `NaN`. -/
def getFullYear : JsDate → Option Int
  | invalid => none
  | valid _ y _ _ => some y

/-- `getMonth()`, zero-based, `none` standing for `NaN`. -/
def getMonth : JsDate → Option Nat
  | invalid => none
  | valid _ _ m _ => some m.val

/-- `getDate()`, the day of the month, `none` standing for `NaN`. -/
def getDate : JsDate → Option Nat
  | invalid => none
  | valid _ _ _ d => some d

end JsDate

/-- Relational `>` on values that are a number or `undefined`/`NaN` (`none`): false as soon as
one side is not a number. -/
def jsGt : Option Nat → Option Nat → Bool
  | some a, some b => decide (b < a)
  | _, _ => false

/-- Relational `<` on values that are a number or `undefined`/`NaN` (`none`). -/
def jsLt : Option Nat → Option Nat → Bool
  | some a, some b => decide (a < b)
  | _, _ => false

/-- `a >= b` on time values. -/
def timeGe : Option Int → Option Int → Bool
  | some a, some b => decide (b ≤ a)
  | _, _ => false

/-- `a <= b` on time values. -/
def timeLe : Option Int → Option Int → Bool
  | some a, some b => decide (a ≤ b)
  | _, _ => false

/-- `a < b` on time values. -/
def timeLt : Option Int → Option Int → Bool
  | some a, some b => decide (a < b)
  | _, _ => false

/-- A transaction identifier: a string or an integer; `===` is equality of these values. -/
inductive JsId where
  | str (s : String)
  | num (n : Int)
  deriving DecidableEq

/-- A property key: an integer index (`"3"`), or any other string (`"NaN"`). -/
inductive PropKey where
  | idx (n : Nat)
  | str (s : String)
  deriving DecidableEq

/-- The errors a method can throw. -/
inductive JsError where
  | typeError
  deriving DecidableEq

/-! ## Counter objects -/

/-- A plain object whose values are numbers, as the list of its own properties in creation
order. -/
abbrev JsObj (κ : Type) := List (κ × Nat)

namespace JsObj

variable {κ : Type} [DecidableEq κ]

/-- Property read `o[k]`; `none` is `undefined`. -/
def get : JsObj κ → κ → Option Nat
  | [], _ => none
  | (k', v) :: rest, k => if k' = k then some v else get rest k

/-- Property write `o[k] = v`: an existing property keeps its place, a new one is created
last. -/
def set : JsObj κ → κ → Nat → JsObj κ
  | [], k, v => [(k, v)]
  | (k', v') :: rest, k, v => if k' = k then (k', v) :: rest else (k', v') :: set rest k v

/-- The own property names in creation order. -/
def names (o : JsObj κ) : List κ := o.map Prod.fst

end JsObj

/-- The index of an integer key. -/
def PropKey.idx? : PropKey → Option Nat
  | .idx n => some n
  | .str _ => none

/-- Whether the key is a string that is not an integer index. -/
def PropKey.isStr : PropKey → Bool
  | .idx _ => false
  | .str _ => true

/-- `Object.keys(o)`: the integer keys in ascending order, then the other keys in creation
order. -/
def objectKeys (o : JsObj PropKey) : List PropKey :=
  ((o.names.filterMap PropKey.idx?).insertionSort (· ≤ ·)).map PropKey.idx
    ++ o.names.filter PropKey.isStr

/-- `xs.reduce(f)` without an initial value: throws a `TypeError` on an empty array, otherwise
folds from the first element. -/
def reduce1 {α : Type} (f : α → α → α) : List α → Except JsError α
  | [] => .error .typeError
  | a :: rest => .ok (rest.foldl f a)

/-! ## Data model -/

/-- One record of `transactions.json`, with the fields the class reads. -/
structure Transaction where
  transaction_id : JsId
  transaction_date : JsDate
  transaction_amount : JsNum
  transaction_type : String
  transaction_description : String
  merchant_name : String
  deriving DecidableEq

/-- The property key `counts[month]` uses for `month = getMonth() + 1`. -/
def monthKey (d : JsDate) : PropKey :=
  match d.getMonth with
  | some m => .idx (m + 1)
  | none => .str "NaN"

/-! ## Methods -/

/-- `getAllTransactions()`. -/
def getAllTransactions (transactions : List Transaction) : List Transaction := transactions

/-- `calculateTotalAmount()`. -/
def calculateTotalAmount (transactions : List Transaction) : JsNum :=
  transactions.foldl (fun sum t => sum + t.transaction_amount) 0

/-- The truthiness test `!x` on an optional integer argument: true for `undefined` and for 0. -/
def falsy : Option Int → Bool
  | none => true
  | some n => decide (n = 0)

/-- Strict equality `x === n` of a calendar field (possibly `NaN`) and a supplied argument. -/
def strictEq (x : Option Int) (n : Option Int) : Bool :=
  match x, n with
  | some a, some b => decide (a = b)
  | _, _ => false

/-- `calculateTotalAmountByDate(year, month, day)`; an argument left out is `none`. -/
def calculateTotalAmountByDate (transactions : List Transaction)
    (year month day : Option Int) : JsNum :=
  (transactions.filter (fun t =>
      let date := t.transaction_date
      (falsy year || strictEq date.getFullYear year) &&
      (falsy month || strictEq (date.getMonth.map (fun m => ((m + 1 : Nat) : Int))) month) &&
      (falsy day || strictEq (date.getDate.map (fun d => (d : Int))) day))).foldl
    (fun sum t => sum + t.transaction_amount) 0

/-- `getTransactionByType(type)`. -/
def getTransactionByType (transactions : List Transaction) (type : String) :
    List Transaction :=
  transactions.filter (fun t => decide (t.transaction_type = type))

/-- `getTransactionsInDateRange(startDate, endDate)`; the arguments are the values of
`new Date(startDate)` and `new Date(endDate)`. -/
def getTransactionsInDateRange (transactions : List Transaction)
    (startDate endDate : JsDate) : List Transaction :=
  transactions.filter (fun t =>
    let date := t.transaction_date
    timeGe date.valueOf startDate.valueOf && timeLe date.valueOf endDate.valueOf)

/-- `getTransactionsByMerchant(merchantName)`. -/
def getTransactionsByMerchant (transactions : List Transaction) (merchantName : String) :
    List Transaction :=
  transactions.filter (fun t => decide (t.merchant_name = merchantName))

/-- `getTransactionsByAmountRange(minAmount, maxAmount)`. -/
def getTransactionsByAmountRange (transactions : List Transaction)
    (minAmount maxAmount : JsNum) : List Transaction :=
  transactions.filter (fun t =>
    let amount := t.transaction_amount
    amount.ge minAmount && amount.le maxAmount)

/-- The `monthCounts` object of `findMostTransactionsMonth`. -/
def monthCounts (transactions : List Transaction) : JsObj PropKey :=
  transactions.foldl (fun counts t =>
    let month := monthKey t.transaction_date
    counts.set month ((counts.get month).getD 0 + 1)) []

/-- `findMostTransactionsMonth()`; the result is the property key (a string in JavaScript). -/
def findMostTransactionsMonth (transactions : List Transaction) : Except JsError PropKey :=
  let monthCounts := monthCounts transactions
  reduce1 (fun a b => if jsGt (monthCounts.get a) (monthCounts.get b) then a else b)
    (objectKeys monthCounts)

/-- The `monthCounts` object of `findMostDebitTransactionMonth`. -/
def debitMonthCounts (transactions : List Transaction) : JsObj PropKey :=
  transactions.foldl (fun counts t =>
    if t.transaction_type = "debit" then
      let month := monthKey t.transaction_date
      counts.set month ((counts.get month).getD 0 + 1)
    else counts) []

/-- `findMostDebitTransactionMonth()`. -/
def findMostDebitTransactionMonth (transactions : List Transaction) :
    Except JsError PropKey :=
  let monthCounts := debitMonthCounts transactions
  reduce1 (fun a b => if jsGt (monthCounts.get a) (monthCounts.get b) then a else b)
    (objectKeys monthCounts)

/-- The `typeCounts` object of `mostTransactionTypes`. -/
def typeCounts (transactions : List Transaction) : JsObj String :=
  transactions.foldl (fun counts t =>
    counts.set t.transaction_type ((counts.get t.transaction_type).getD 0 + 1)) []

/-- `mostTransactionTypes()`. -/
def mostTransactionTypes (transactions : List Transaction) : String :=
  let typeCounts := typeCounts transactions
  if jsGt (typeCounts.get "debit") (typeCounts.get "credit") then "debit"
  else if jsLt (typeCounts.get "debit") (typeCounts.get "credit") then "credit"
  else "equal"

/-- `getTransactionsBeforeDate(date)`; the argument is the value of `new Date(date)`. -/
def getTransactionsBeforeDate (transactions : List Transaction) (date : JsDate) :
    List Transaction :=
  let targetDate := date
  transactions.filter (fun t => timeLt t.transaction_date.valueOf targetDate.valueOf)

/-- `findTransactionById(id)`; `none` is `undefined`. -/
def findTransactionById (transactions : List Transaction) (id : JsId) : Option Transaction :=
  transactions.find? (fun t => decide (t.transaction_id = id))

/-- `mapTransactionDescriptions()`. -/
def mapTransactionDescriptions (transactions : List Transaction) : List String :=
  transactions.map (fun t => t.transaction_description)

/-- A record with the given fields and empty description, used in examples. -/
def mkTx (id : Int) (type : String) (amount : ℚ) (date : JsDate) (merchant : String) :
    Transaction :=
  Transaction.mk (.num id) date (.fin amount) type "" merchant

/-- The value of `new Date("2021-03-01")`, UTC midnight, with the calendar fields of a UTC
environment. -/
def march1 : JsDate := .valid 1614556800000 2021 2 1

/-- The value of `new Date("2021-03-15")`, UTC midnight, with the calendar fields of a UTC
environment. -/
def march15 : JsDate := .valid 1615766400000 2021 2 15

/-- The value of `new Date("2021-04-01")`, UTC midnight, with the calendar fields of a UTC
environment. -/
def april1 : JsDate := .valid 1617235200000 2021 3 1


/-! ## Specification-side notions -/

/-- The number of records of type `ty`. -/
def countType (S : List Transaction) (ty : String) : Nat :=
  S.countP (fun t => decide (t.transaction_type = ty))

/-- The result the documentation of `mostTransactionTypes` describes: the more common of the
two types, or `"equal"`. -/
def dominantType (S : List Transaction) : String :=
  if countType S "credit" < countType S "debit" then "debit"
  else if countType S "debit" < countType S "credit" then "credit"
  else "equal"

/-- The month `getMonth() + 1` of a record, in 1..12; `none` when the date is invalid. -/
def monthOf (t : Transaction) : Option Nat :=
  t.transaction_date.getMonth.map (fun m => m + 1)

/-- The number of records whose month is `m`. -/
def countMonth (S : List Transaction) (m : Nat) : Nat :=
  S.countP (fun t => decide (monthOf t = some m))

/-- The number of records counted under the property key `k`. -/
def keyCount (S : List Transaction) (k : PropKey) : Nat :=
  S.countP (fun t => decide (monthKey t.transaction_date = k))

/-- Whether the date of the record parsed. -/
def validDate (t : Transaction) : Prop := t.transaction_date ≠ JsDate.invalid

/-- Addition of JavaScript numbers is associative and commutative with unit 0 (in this model,
where finite values are exact). -/
instance : AddCommMonoid JsNum where
  add := JsNum.add
  zero := JsNum.fin 0
  add_assoc := by
    intro a b c
    cases a <;> cases b <;> cases c <;>
      simp only [HAdd.hAdd, Add.add, JsNum.add, JsNum.fin.injEq]
    exact add_assoc _ _ _
  zero_add := by
    intro a
    cases a <;> simp only [HAdd.hAdd, Add.add, OfNat.ofNat, Zero.zero, JsNum.add,
      JsNum.fin.injEq]
    exact zero_add _
  add_zero := by
    intro a
    cases a <;> simp only [HAdd.hAdd, Add.add, OfNat.ofNat, Zero.zero, JsNum.add,
      JsNum.fin.injEq]
    exact add_zero _
  add_comm := by
    intro a b
    cases a <;> cases b <;>
      simp only [HAdd.hAdd, Add.add, JsNum.add, JsNum.fin.injEq]
    exact add_comm _ _
  nsmul := nsmulRec

/-- The three-record scenario: debit 50.00 on 2021-03-01 at A, credit 30.00 on 2021-03-15 at
B, debit 20.00 on 2021-04-01 at A. -/
def scenario : List Transaction :=
  [mkTx 1 "debit" 50 march1 "A", mkTx 2 "credit" 30 march15 "B", mkTx 3 "debit" 20 april1 "A"]

/-- The range condition of the specification: the bounds and the date of the record are
dates, and the date lies between the bounds, both included. -/
def inRange (lo hi : JsDate) (t : Transaction) : Prop :=
  ∃ a x b, lo.valueOf = some a ∧ t.transaction_date.valueOf = some x ∧ hi.valueOf = some b ∧
    a ≤ x ∧ x ≤ b

/-- `addTransaction(transaction)`: `push` stores the record after the last one. The result is
the list stored afterwards; the methods that only read the list leave it as it is. -/
def addTransaction (transactions : List Transaction) (transaction : Transaction) :
    List Transaction :=
  transactions ++ [transaction]

/-- `Set.prototype.add` on the list of the elements in insertion order: a value already in the
set is not added again, a new value is added last. -/
def setAdd (s : List String) (x : String) : List String :=
  if x ∈ s then s else s ++ [x]

/-- `new Set(xs)`: the values of `xs` are added one after the other. -/
def newSet (xs : List String) : List String := xs.foldl setAdd []

/-- `getUniqueTransactionType()`; `Array.from` lists the set in insertion order. -/
def getUniqueTransactionType (transactions : List Transaction) : List String :=
  let types := newSet (transactions.map (fun t => t.transaction_type))
  types

/-! ## Specification-side notions for relabelling and filters -/

/-- The relabelling of one type: `"debit"` and `"credit"` are exchanged, any other label is
kept. -/
def swapType (ty : String) : String :=
  if ty = "debit" then "credit" else if ty = "credit" then "debit" else ty

/-- The sequence with every `"debit"` label replaced by `"credit"` and conversely. -/
def relabel (S : List Transaction) : List Transaction :=
  S.map (fun t => Transaction.mk t.transaction_id t.transaction_date t.transaction_amount
    (swapType t.transaction_type) t.transaction_description t.merchant_name)

/-- A filter query: `result` is an order-preserving subsequence of `S`, holds exactly the
records that satisfy `P`, and holds every occurrence of them (any subsequence of `S` made of
records satisfying `P` is a subsequence of `result`). -/
def IsFilterOf (P : Transaction → Prop) (S result : List Transaction) : Prop :=
  result.Sublist S ∧ (∀ t, t ∈ result ↔ t ∈ S ∧ P t) ∧
    ∀ l : List Transaction, l.Sublist S → (∀ t ∈ l, P t) → l.Sublist result

/-- A number as an extended rational; `NaN` is none. -/
def JsNum.toExtended : JsNum → Option (WithBot (WithTop ℚ))
  | .nan => none
  | .posInf => some ((⊤ : WithTop ℚ) : WithBot (WithTop ℚ))
  | .negInf => some ⊥
  | .fin q => some ((q : WithTop ℚ) : WithBot (WithTop ℚ))

/-- The amount condition of the specification: `min <= a <= max` for the amount `a` of the
record, none of the three being `NaN`. -/
def amountBetween (min max : JsNum) (t : Transaction) : Prop :=
  ∃ lo a hi, min.toExtended = some lo ∧ t.transaction_amount.toExtended = some a ∧
    max.toExtended = some hi ∧ lo ≤ a ∧ a ≤ hi

/-- The condition of `getTransactionsBeforeDate`: the record and the target have a date, the
former strictly earlier. -/
def datedBefore (target : JsDate) (t : Transaction) : Prop :=
  ∃ x d, t.transaction_date.valueOf = some x ∧ target.valueOf = some d ∧ x < d

end TransactionAnalyzer

/-!
# The ledger form (src/ind3/src/script.js)

The state is the global `transactions` array. The table rows, the total display and the
details pane are not modelled. The two event handlers that change the array are
`addTransaction` (form submit) and `deleteTransaction` (click on a delete button).
-/

namespace Ledger

/-- The `Transaction` typedef of the ledger. -/
structure Transaction where
  id : Int
  date : String
  amount : TransactionAnalyzer.JsNum
  category : String
  description : String
  deriving DecidableEq

/-- What `addTransaction` reads from outside the array: the three form fields (the amount
after `parseFloat`) and the clock (`new Date().toLocaleString()`). -/
structure FormInput where
  amount : TransactionAnalyzer.JsNum
  category : String
  description : String
  date : String
  deriving DecidableEq

/-- `addTransaction()`; the result is the array afterwards. -/
def addTransaction (transactions : List Transaction) (form : FormInput) : List Transaction :=
  let amount := form.amount
  let category := form.category
  let description := form.description
  let id : Int := (transactions.length : Int) + 1
  let date := form.date
  let transaction := Transaction.mk id date amount category description
  transactions ++ [transaction]

/-- `xs.findIndex(p)`: the index of the first element that passes the test, or -1. -/
def findIndex {α : Type} (p : α → Bool) : List α → Int
  | [] => -1
  | a :: rest =>
    if p a then 0
    else
      let i := findIndex p rest
      if i = -1 then -1 else i + 1

/-- `deleteTransaction(id)`; `splice(index, 1)` removes the element at `index`. -/
def deleteTransaction (transactions : List Transaction) (id : Int) : List Transaction :=
  let index := findIndex (fun transaction => decide (transaction.id = id)) transactions
  if index ≠ -1 then transactions.eraseIdx index.toNat
  else transactions

/-- One user action on the page. -/
inductive Action where
  | add (form : FormInput)
  | delete (id : Int)

/-- The effect of one action on the array. -/
def step (transactions : List Transaction) : Action → List Transaction
  | .add form => addTransaction transactions form
  | .delete id => deleteTransaction transactions id

/-- The array after a sequence of actions on the initially empty array. -/
def run (actions : List Action) : List Transaction := actions.foldl step []

/-- The states reachable from the empty ledger. -/
def Reachable (transactions : List Transaction) : Prop := ∃ actions, run actions = transactions

/-- A form input with the given amount and empty texts. -/
def form (amount : ℚ) : FormInput := FormInput.mk (.fin amount) "" "" ""

end Ledger

namespace TransactionAnalyzer

/-! ## Lemmas and theorems -/

/-! ## Counter objects: reads after writes -/

theorem JsObj.get_set {κ : Type} [DecidableEq κ] (o : JsObj κ) (k k' : κ) (v : Nat) :
    (o.set k v).get k' = if k = k' then some v else o.get k' := by
  induction o with
  | nil => simp [JsObj.set, JsObj.get]
  | cons p rest ih =>
    obtain ⟨a, b⟩ := p
    by_cases h : a = k
    · subst h
      by_cases h' : a = k' <;> simp [JsObj.set, JsObj.get, h']
    · by_cases h' : a = k'
      · subst h'
        simp [JsObj.set, JsObj.get, h, Ne.symm h]
      · simp [JsObj.set, JsObj.get, h, h', ih]

theorem JsObj.get_eq_none_iff {κ : Type} [DecidableEq κ] (o : JsObj κ) (k : κ) :
    o.get k = none ↔ k ∉ o.names := by
  induction o with
  | nil => simp [JsObj.get, JsObj.names]
  | cons p rest ih =>
    obtain ⟨a, b⟩ := p
    by_cases h : a = k
    · simp [JsObj.get, JsObj.names, h]
    · have ih' : JsObj.get rest k = none ↔ k ∉ List.map Prod.fst rest := ih
      simp [JsObj.get, JsObj.names, h, Ne.symm h, ih']

/-- The counting fold: after folding `counts[key] = (counts[key] || 0) + 1` over the elements
that have a key, the entry of `k` is the number of elements with key `k`, and is absent when
there is none. -/
theorem get_foldl_count {α κ : Type} [DecidableEq κ] (key : α → Option κ)
    (step : JsObj κ → α → JsObj κ)
    (hstep : ∀ c t, step c t =
      match key t with
      | some k => c.set k ((c.get k).getD 0 + 1)
      | none => c)
    (l : List α) (k : κ) :
    ∀ init : JsObj κ, (l.foldl step init).get k =
      if l.countP (fun t => decide (key t = some k)) = 0 then init.get k
      else some ((init.get k).getD 0 + l.countP (fun t => decide (key t = some k))) := by
  induction l with
  | nil => intro init; simp
  | cons t rest ih =>
    intro init
    rw [List.foldl_cons, ih, hstep]
    rcases hk : key t with _ | k0
    · simp [List.countP_cons, hk]
    · by_cases h : k0 = k
      · subst h
        simp [List.countP_cons, hk, JsObj.get_set]
        split_ifs <;> simp_all
        omega
      · simp [List.countP_cons, hk, JsObj.get_set, h]

theorem typeCounts_get (S : List Transaction) (ty : String) :
    (typeCounts S).get ty =
      if S.countP (fun t => decide (t.transaction_type = ty)) = 0 then none
      else some (S.countP (fun t => decide (t.transaction_type = ty))) := by
  have h := get_foldl_count (fun t : Transaction => some t.transaction_type)
    (fun counts t =>
      counts.set t.transaction_type ((counts.get t.transaction_type).getD 0 + 1))
    (fun _ _ => rfl) S ty []
  simpa [typeCounts, JsObj.get] using h

/-! ## mostTransactionTypes -/

/-- What `mostTransactionTypes` computes: the comparison of the two counts is only made when
both types occur; otherwise one side is `undefined` and the answer is `"equal"`. -/
theorem mostTransactionTypes_eq (S : List Transaction) :
    mostTransactionTypes S =
      if countType S "debit" = 0 ∨ countType S "credit" = 0 then "equal"
      else dominantType S := by
  unfold mostTransactionTypes dominantType
  simp only [typeCounts_get]
  unfold countType
  by_cases hd : S.countP (fun t => decide (t.transaction_type = "debit")) = 0
  · simp [hd, jsGt, jsLt]
  · by_cases hc : S.countP (fun t => decide (t.transaction_type = "credit")) = 0
    · simp [hd, hc, jsGt, jsLt]
    · simp [hd, hc, jsGt, jsLt]

/-- C1 (defect in the code): on a sequence with one credit record and no debit record the
debit count is `undefined`, both comparisons are false and `mostTransactionTypes` answers
`"equal"`, although credit is the more common type (1 against 0). -/
theorem mostTransactionTypes_credit_only :
    countType [mkTx 1 "credit" 30 march15 "B"] "debit" = 0 ∧
    countType [mkTx 1 "credit" 30 march15 "B"] "credit" = 1 ∧
    dominantType [mkTx 1 "credit" 30 march15 "B"] = "credit" ∧
    mostTransactionTypes [mkTx 1 "credit" 30 march15 "B"] = "equal" := by
  refine ⟨by decide, by decide, by decide, by decide⟩

/-! ## Empty key lists -/

/-- C2 (defect in the code): `findMostTransactionsMonth` on the empty sequence, and
`findMostDebitTransactionMonth` on a sequence without debit record, reduce an empty key array
without initial value and throw a `TypeError`. -/
theorem findMostTransactionsMonth_throws :
    findMostTransactionsMonth [] = .error .typeError ∧
    findMostDebitTransactionMonth [] = .error .typeError ∧
    findMostDebitTransactionMonth [mkTx 2 "credit" 30 march15 "B"] = .error .typeError := by
  refine ⟨rfl, rfl, rfl⟩

/-! ## Key enumeration and the reduction over it -/

theorem mem_objectKeys (o : JsObj PropKey) (k : PropKey) :
    k ∈ objectKeys o ↔ k ∈ o.names := by
  unfold objectKeys
  rw [List.mem_append, List.mem_map, List.mem_filter]
  constructor
  · rintro (⟨n, hn, rfl⟩ | ⟨h, _⟩)
    · rw [(List.perm_insertionSort _ _).mem_iff, List.mem_filterMap] at hn
      obtain ⟨j, hj, hjn⟩ := hn
      cases j with
      | idx i => simp [PropKey.idx?] at hjn; subst hjn; exact hj
      | str s => simp [PropKey.idx?] at hjn
    · exact h
  · intro h
    cases k with
    | idx i =>
      left
      refine ⟨i, ?_, rfl⟩
      rw [(List.perm_insertionSort _ _).mem_iff, List.mem_filterMap]
      exact ⟨.idx i, h, rfl⟩
    | str s => right; exact ⟨h, rfl⟩

/-- Folding `(a, b) => g[a] > g[b] ? a : b` over a list whose elements all have an entry keeps
the last element of greatest entry: nothing before it is greater, everything after it is
smaller. -/
theorem foldl_pick_spec {κ : Type} (g : κ → Option Nat) (l : List κ) :
    ∀ a : κ, (∀ j ∈ a :: l, g j ≠ none) →
      ∃ pre r post, a :: l = pre ++ r :: post ∧
        l.foldl (fun a b => if jsGt (g a) (g b) then a else b) a = r ∧
        (∀ j ∈ pre, (g j).getD 0 ≤ (g r).getD 0) ∧
        (∀ j ∈ post, (g j).getD 0 < (g r).getD 0) := by
  induction l using List.reverseRecOn with
  | nil => intro a _; exact ⟨[], a, [], rfl, rfl, by simp, by simp⟩
  | append_singleton l b ih =>
    intro a hall
    have hall' : ∀ j ∈ a :: l, g j ≠ none := by
      intro j hj
      apply hall
      simp only [List.mem_cons, List.mem_append] at hj ⊢
      tauto
    obtain ⟨pre, r, post, hsplit, hres, hpre, hpost⟩ := ih a hall'
    have hb : g b ≠ none := hall b (by simp)
    have hr : g r ≠ none := hall' r (by rw [hsplit]; simp)
    obtain ⟨vb, hvb⟩ := Option.ne_none_iff_exists'.mp hb
    obtain ⟨vr, hvr⟩ := Option.ne_none_iff_exists'.mp hr
    rw [List.foldl_append, List.foldl_cons, List.foldl_nil, hres]
    by_cases hgt : vb < vr
    · refine ⟨pre, r, post ++ [b], ?_, ?_, hpre, ?_⟩
      · rw [← List.cons_append, hsplit]; simp
      · simp [jsGt, hvb, hvr, hgt]
      · intro j hj
        rw [List.mem_append] at hj
        rcases hj with hj | hj
        · exact hpost j hj
        · simp only [List.mem_singleton] at hj
          subst hj
          simpa [hvb, hvr] using hgt
    · refine ⟨a :: l, b, [], ?_, ?_, ?_, by simp⟩
      · simp
      · simp [jsGt, hvb, hvr, hgt]
      · intro j hj
        rw [hsplit, List.mem_append, List.mem_cons] at hj
        have hrb : (g r).getD 0 ≤ (g b).getD 0 := by simp [hvb, hvr]; omega
        rcases hj with hj | hj | hj
        · exact le_trans (hpre j hj) hrb
        · subst hj; exact hrb
        · exact le_trans (le_of_lt (hpost j hj)) hrb

/-- The reduction over the keys of a counter object `o` whose entries are the positive values
of `n`: it returns a key of greatest count, the last such key of the enumeration. -/
theorem reduce_keys_spec (o : JsObj PropKey) (n : PropKey → Nat)
    (hn : ∀ k, o.get k = if n k = 0 then none else some (n k))
    (k0 : PropKey) (hk0 : 0 < n k0) :
    ∃ pre k post, objectKeys o = pre ++ k :: post ∧
      reduce1 (fun a b => if jsGt (o.get a) (o.get b) then a else b) (objectKeys o) = .ok k ∧
      (∀ j ∈ pre, n j ≤ n k) ∧ (∀ j ∈ post, n j < n k) ∧ (∀ j, n j ≤ n k) ∧ 0 < n k := by
  have hget : ∀ j, (o.get j).getD 0 = n j := by
    intro j
    rw [hn j]
    split_ifs with h <;> simp [h]
  have hmem : ∀ j, j ∈ objectKeys o ↔ 0 < n j := by
    intro j
    rw [mem_objectKeys, ← not_iff_not, ← JsObj.get_eq_none_iff, hn j]
    split_ifs with h <;> simp [h]
  have hk0mem : k0 ∈ objectKeys o := (hmem k0).mpr hk0
  rcases hkeys : objectKeys o with _ | ⟨a, l⟩
  · rw [hkeys] at hk0mem; simp at hk0mem
  · have hall : ∀ j ∈ a :: l, o.get j ≠ none := by
      intro j hj
      rw [← hkeys, hmem] at hj
      rw [hn j]
      simp [Nat.pos_iff_ne_zero.mp hj]
    obtain ⟨pre, r, post, hsplit, hres, hpre, hpost⟩ := foldl_pick_spec o.get l a hall
    simp only [hget] at hpre hpost
    refine ⟨pre, r, post, hsplit, ?_, hpre, hpost, ?_, ?_⟩
    · simp only [reduce1, hres]
    · intro j
      by_cases hj : 0 < n j
      · have hj' : j ∈ pre ++ r :: post := by rw [← hsplit, ← hkeys]; exact (hmem j).mpr hj
        rw [List.mem_append, List.mem_cons] at hj'
        rcases hj' with h | h | h
        · exact hpre j h
        · rw [h]
        · exact le_of_lt (hpost j h)
      · have : n j = 0 := by omega
        omega
    · have : r ∈ objectKeys o := by rw [hkeys, hsplit]; simp
      exact (hmem r).mp this

/-! ## findMostTransactionsMonth -/

theorem monthCounts_get (S : List Transaction) (k : PropKey) :
    (monthCounts S).get k = if keyCount S k = 0 then none else some (keyCount S k) := by
  have h := get_foldl_count (fun t : Transaction => some (monthKey t.transaction_date))
    (fun counts t =>
      let month := monthKey t.transaction_date
      counts.set month ((counts.get month).getD 0 + 1))
    (fun _ _ => rfl) S k []
  simpa [monthCounts, keyCount, JsObj.get] using h

theorem monthKey_eq_idx (t : Transaction) (m : Nat) :
    monthKey t.transaction_date = .idx m ↔ monthOf t = some m := by
  unfold monthKey monthOf
  cases t.transaction_date.getMonth <;> simp

theorem keyCount_idx (S : List Transaction) (m : Nat) :
    keyCount S (.idx m) = countMonth S m := by
  unfold keyCount countMonth
  congr 1
  funext t
  simp only [monthKey_eq_idx]

theorem monthOf_bounds (t : Transaction) (m : Nat) (h : monthOf t = some m) :
    1 ≤ m ∧ m ≤ 12 := by
  unfold monthOf JsDate.getMonth at h
  cases hd : t.transaction_date with
  | invalid => simp [hd] at h
  | valid time y mo d =>
    simp [hd] at h
    have := mo.isLt
    omega

theorem keyCount_pos_iff (S : List Transaction) (k : PropKey) :
    0 < keyCount S k ↔ ∃ t ∈ S, monthKey t.transaction_date = k := by
  unfold keyCount
  rw [List.countP_pos_iff]
  simp

/-- The general behaviour of `findMostTransactionsMonth` on a non-empty sequence. -/
theorem findMostTransactionsMonth_spec (S : List Transaction) (hne : S ≠ []) :
    ∃ pre k post, objectKeys (monthCounts S) = pre ++ k :: post ∧
      findMostTransactionsMonth S = .ok k ∧
      (∀ j ∈ pre, keyCount S j ≤ keyCount S k) ∧ (∀ j ∈ post, keyCount S j < keyCount S k) ∧
      (∀ j, keyCount S j ≤ keyCount S k) ∧ 0 < keyCount S k := by
  obtain ⟨t, rest, rfl⟩ := List.exists_cons_of_ne_nil hne
  exact reduce_keys_spec (monthCounts (t :: rest)) (keyCount (t :: rest))
    (monthCounts_get (t :: rest)) (monthKey t.transaction_date)
    ((keyCount_pos_iff _ _).mpr ⟨t, by simp, rfl⟩)

/-- C3 (counterexample): a non-empty sequence whose only record has an unparseable date is
counted under the key `"NaN"`, and that key, not a month in 1..12, is returned. -/
theorem findMostTransactionsMonth_invalid_date :
    [mkTx 1 "debit" 50 JsDate.invalid "A"] ≠ [] ∧
    findMostTransactionsMonth [mkTx 1 "debit" 50 JsDate.invalid "A"] = .ok (.str "NaN") ∧
    ¬ ∃ m, findMostTransactionsMonth [mkTx 1 "debit" 50 JsDate.invalid "A"] = .ok (.idx m) ∧
      1 ≤ m ∧ m ≤ 12 := by
  refine ⟨by simp, rfl, ?_⟩
  rintro ⟨m, hm, _⟩
  have h : findMostTransactionsMonth [mkTx 1 "debit" 50 JsDate.invalid "A"]
      = .ok (.str "NaN") := rfl
  rw [h] at hm
  cases hm

/-- C3 (amended): for every non-empty sequence whose records all have a valid date,
`findMostTransactionsMonth` returns a month `m` in 1..12 that is the month of at least one
record and whose record count is at least the record count of every month. -/
theorem findMostTransactionsMonth_max (S : List Transaction) (hne : S ≠ [])
    (hvalid : ∀ t ∈ S, validDate t) :
    ∃ m, findMostTransactionsMonth S = .ok (.idx m) ∧ 1 ≤ m ∧ m ≤ 12 ∧
      (∃ t ∈ S, monthOf t = some m) ∧ ∀ m', countMonth S m' ≤ countMonth S m := by
  obtain ⟨pre, k, post, _, hres, _, _, hmax, hpos⟩ := findMostTransactionsMonth_spec S hne
  obtain ⟨t, ht, hk⟩ := (keyCount_pos_iff S k).mp hpos
  cases hd : t.transaction_date with
  | invalid => exact absurd hd (hvalid t ht)
  | valid time y mo d =>
    have hkm : k = .idx (mo.val + 1) := by
      rw [← hk, hd]; rfl
    subst hkm
    have hmo : monthOf t = some (mo.val + 1) := (monthKey_eq_idx t _).mp hk
    refine ⟨mo.val + 1, hres, (monthOf_bounds t _ hmo).1, (monthOf_bounds t _ hmo).2,
      ⟨t, ht, hmo⟩, ?_⟩
    intro m'
    rw [← keyCount_idx, ← keyCount_idx]
    exact hmax _

/-- Witness of C3 on the two March records and one April record of the scenario. -/
theorem findMostTransactionsMonth_max_witness :
    ∃ m, findMostTransactionsMonth scenario = .ok (.idx m) ∧ 1 ≤ m ∧ m ≤ 12 ∧
      (∃ t ∈ scenario, monthOf t = some m) ∧
      ∀ m', countMonth scenario m' ≤ countMonth scenario m :=
  findMostTransactionsMonth_max scenario (List.cons_ne_nil _ _)
    (by simp [scenario, validDate, mkTx, march1, march15, april1])

/-- What characterises `filter`: an order-preserving sublist, all of whose elements pass the
test, and that contains every sublist whose elements all pass the test. -/
theorem filter_characterisation {α : Type} (p : α → Bool) (l : List α) :
    (l.filter p).Sublist l ∧ (∀ a, a ∈ l.filter p ↔ a ∈ l ∧ p a = true) ∧
    (∀ l' : List α, l'.Sublist l → (∀ a ∈ l', p a = true) → l'.Sublist (l.filter p)) := by
  refine ⟨List.filter_sublist l, fun a => List.mem_filter, ?_⟩
  intro l' hsub hall
  have h := hsub.filter p
  rwa [List.filter_eq_self.mpr hall] at h

/-- C7: `getTransactionByType(t)` is an order-preserving sublist of the sequence, holds
exactly the records whose type equals `t`, with all their occurrences, and the comparison is
exact: `"Debit"` is not `"debit"`. -/
theorem getTransactionByType_spec (S : List Transaction) (ty : String) :
    (getTransactionByType S ty).Sublist S ∧
    (∀ t, t ∈ getTransactionByType S ty ↔ t ∈ S ∧ t.transaction_type = ty) ∧
    (∀ l : List Transaction, l.Sublist S → (∀ t ∈ l, t.transaction_type = ty) →
      l.Sublist (getTransactionByType S ty)) ∧
    getTransactionByType [mkTx 1 "Debit" 50 march1 "A"] "debit" = [] := by
  obtain ⟨h1, h2, h3⟩ :=
    filter_characterisation (fun t : Transaction => decide (t.transaction_type = ty)) S
  refine ⟨h1, ?_, ?_, by decide⟩
  · intro t
    rw [← decide_eq_true_iff (p := t.transaction_type = ty)]
    exact h2 t
  · intro l hl hall
    exact h3 l hl (fun t ht => decide_eq_true (hall t ht))

theorem inRange_iff (lo hi : JsDate) (t : Transaction) :
    (timeGe t.transaction_date.valueOf lo.valueOf &&
      timeLe t.transaction_date.valueOf hi.valueOf) = true ↔ inRange lo hi t := by
  unfold inRange
  rcases lo.valueOf with _ | a <;> rcases hi.valueOf with _ | b <;>
    rcases t.transaction_date.valueOf with _ | x <;> simp [timeGe, timeLe]

/-- C8: `getTransactionsInDateRange(lo, hi)` is an order-preserving sublist of the sequence
that holds exactly the records whose date `d` satisfies `lo <= d <= hi`, with all their
occurrences; a record dated exactly `lo` or exactly `hi` is included. -/
theorem getTransactionsInDateRange_spec (S : List Transaction) (lo hi : JsDate) :
    (getTransactionsInDateRange S lo hi).Sublist S ∧
    (∀ t, t ∈ getTransactionsInDateRange S lo hi ↔ t ∈ S ∧ inRange lo hi t) ∧
    (∀ l : List Transaction, l.Sublist S → (∀ t ∈ l, inRange lo hi t) →
      l.Sublist (getTransactionsInDateRange S lo hi)) ∧
    (∀ t a b, t ∈ S → lo.valueOf = some a → hi.valueOf = some b → a ≤ b →
      (t.transaction_date.valueOf = some a ∨ t.transaction_date.valueOf = some b) →
      t ∈ getTransactionsInDateRange S lo hi) := by
  obtain ⟨h1, h2, h3⟩ := filter_characterisation (fun t : Transaction =>
    timeGe t.transaction_date.valueOf lo.valueOf &&
      timeLe t.transaction_date.valueOf hi.valueOf) S
  have hmem : ∀ t, t ∈ getTransactionsInDateRange S lo hi ↔ t ∈ S ∧ inRange lo hi t := by
    intro t
    rw [← inRange_iff]
    exact h2 t
  refine ⟨h1, hmem, ?_, ?_⟩
  · intro l hl hall
    exact h3 l hl (fun t ht => (inRange_iff lo hi t).mpr (hall t ht))
  · intro t a b ht hlo hhi hab hd
    refine (hmem t).mpr ⟨ht, ?_⟩
    rcases hd with hd | hd
    · exact ⟨a, a, b, hlo, hd, hhi, le_refl _, hab⟩
    · exact ⟨a, b, b, hlo, hd, hhi, hab, le_refl _⟩

/-- C9: when some record has id `x`, `findTransactionById(x)` returns the first such record
of the sequence (no record before it has id `x`, whatever follows); when no record has id
`x` it returns `undefined`. -/
theorem findTransactionById_spec (S : List Transaction) (x : JsId) :
    ((∃ t ∈ S, t.transaction_id = x) →
      ∃ pre r post, S = pre ++ r :: post ∧ r.transaction_id = x ∧
        (∀ p ∈ pre, p.transaction_id ≠ x) ∧ findTransactionById S x = some r) ∧
    ((∀ t ∈ S, t.transaction_id ≠ x) → findTransactionById S x = none) := by
  unfold findTransactionById
  constructor
  · induction S with
    | nil => rintro ⟨t, ht, _⟩; simp at ht
    | cons s rest ih =>
      intro hex
      by_cases hs : s.transaction_id = x
      · exact ⟨[], s, rest, rfl, hs, by simp, by simp [List.find?_cons, hs]⟩
      · have hex' : ∃ t ∈ rest, t.transaction_id = x := by
          obtain ⟨t, ht, htx⟩ := hex
          rcases List.mem_cons.mp ht with h | h
          · subst h; exact absurd htx hs
          · exact ⟨t, h, htx⟩
        obtain ⟨pre, r, post, hsplit, hr, hpre, hfind⟩ := ih hex'
        refine ⟨s :: pre, r, post, by rw [hsplit]; rfl, hr, ?_, ?_⟩
        · intro p hp
          rcases List.mem_cons.mp hp with h | h
          · subst h; exact hs
          · exact hpre p h
        · simp [List.find?_cons, hs, hfind]
  · intro hall
    rw [List.find?_eq_none]
    intro t ht
    simpa using hall t ht

/-- Witness of C9 on a sequence in which two records share the id 1. -/
theorem findTransactionById_witness :
    ∃ pre r post,
      [mkTx 2 "credit" 30 march15 "B", mkTx 1 "debit" 50 march1 "A",
        mkTx 1 "debit" 20 april1 "A"] = pre ++ r :: post ∧
      r.transaction_id = .num 1 ∧ (∀ p ∈ pre, p.transaction_id ≠ .num 1) ∧
      findTransactionById [mkTx 2 "credit" 30 march15 "B", mkTx 1 "debit" 50 march1 "A",
        mkTx 1 "debit" 20 april1 "A"] (.num 1) = some r :=
  (findTransactionById_spec _ _).1 ⟨mkTx 1 "debit" 50 march1 "A", by simp, rfl⟩

/-! ## calculateTotalAmountByDate -/

/-- C11: after `addTransaction(t)` the stored sequence is `S` followed by `t`: one record
more, the first `|S|` records are those of `S` in the same order, the last record is `t`, and
the queries are computed over the extended sequence. -/
theorem addTransaction_spec (S : List Transaction) (t : Transaction) :
    (addTransaction S t).length = S.length + 1 ∧
    (addTransaction S t).take S.length = S ∧
    (∀ i, i < S.length → (addTransaction S t)[i]? = S[i]?) ∧
    (addTransaction S t)[S.length]? = some t ∧
    (addTransaction S t).getLast? = some t ∧
    getAllTransactions (addTransaction S t) = S ++ [t] ∧
    calculateTotalAmount (addTransaction S t) = calculateTotalAmount S + t.transaction_amount ∧
    (∀ ty, getTransactionByType (addTransaction S t) ty
      = getTransactionByType S ty ++ (if t.transaction_type = ty then [t] else [])) ∧
    mapTransactionDescriptions (addTransaction S t)
      = mapTransactionDescriptions S ++ [t.transaction_description] ∧
    ((∀ s ∈ S, s.transaction_id ≠ t.transaction_id) →
      findTransactionById (addTransaction S t) t.transaction_id = some t) := by
  unfold addTransaction
  refine ⟨by simp, by simp, ?_, by simp, by simp, rfl, ?_, ?_, by simp [mapTransactionDescriptions],
    ?_⟩
  · intro i hi
    rw [List.getElem?_append_left hi]
  · unfold calculateTotalAmount
    rw [List.foldl_append, List.foldl_cons, List.foldl_nil]
  · intro ty
    unfold getTransactionByType
    rw [List.filter_append]
    by_cases h : t.transaction_type = ty <;> simp [List.filter_cons, h]
  · intro hall
    unfold findTransactionById
    rw [List.find?_append, List.find?_eq_none.mpr (by simpa using hall)]
    simp

/-! ## Relabelling -/

theorem swapType_eq_debit (ty : String) : swapType ty = "debit" ↔ ty = "credit" := by
  unfold swapType
  by_cases h1 : ty = "debit"
  · subst h1; decide
  · by_cases h2 : ty = "credit"
    · subst h2; decide
    · simp [h1, h2]

theorem swapType_eq_credit (ty : String) : swapType ty = "credit" ↔ ty = "debit" := by
  unfold swapType
  by_cases h1 : ty = "debit"
  · subst h1; decide
  · by_cases h2 : ty = "credit"
    · subst h2; decide
    · simp [h1, h2]

theorem countType_relabel_debit (S : List Transaction) :
    countType (relabel S) "debit" = countType S "credit" := by
  unfold countType relabel
  rw [List.countP_map]
  congr 1
  funext t
  simp [swapType_eq_debit]

theorem countType_relabel_credit (S : List Transaction) :
    countType (relabel S) "credit" = countType S "debit" := by
  unfold countType relabel
  rw [List.countP_map]
  congr 1
  funext t
  simp [swapType_eq_credit]

/-- The result of `mostTransactionTypes` as a function of the two counts. -/
theorem mostTransactionTypes_cases (S : List Transaction) :
    (mostTransactionTypes S = "debit" ↔
      0 < countType S "credit" ∧ countType S "credit" < countType S "debit") ∧
    (mostTransactionTypes S = "credit" ↔
      0 < countType S "debit" ∧ countType S "debit" < countType S "credit") := by
  rw [mostTransactionTypes_eq]
  unfold dominantType
  have e1 : ("equal" : String) ≠ "debit" := by decide
  have e2 : ("equal" : String) ≠ "credit" := by decide
  have e3 : ("debit" : String) ≠ "credit" := by decide
  have e4 : ("credit" : String) ≠ "debit" := by decide
  constructor
  · split_ifs with h1 h2 h3
    · simp only [e1, false_iff]; omega
    · simp only [true_iff]; omega
    · simp only [e4, false_iff]; omega
    · simp only [e1, false_iff]; omega
  · split_ifs with h1 h2 h3
    · simp only [e2, false_iff]; omega
    · simp only [e3, false_iff]; omega
    · simp only [true_iff]; omega
    · simp only [e2, false_iff]; omega

theorem mostTransactionTypes_values (S : List Transaction) :
    mostTransactionTypes S = "debit" ∨ mostTransactionTypes S = "credit" ∨
      mostTransactionTypes S = "equal" := by
  unfold mostTransactionTypes
  simp only
  split_ifs <;> simp

/-- C12: exchanging the labels `"debit"` and `"credit"` in every record exchanges the results
`"debit"` and `"credit"` of `mostTransactionTypes` and keeps the result `"equal"`; when the
two counts are equal, in particular on the empty sequence, the result is `"equal"`. -/
theorem mostTransactionTypes_symmetric (S : List Transaction) :
    (mostTransactionTypes S = "debit" → mostTransactionTypes (relabel S) = "credit") ∧
    (mostTransactionTypes S = "credit" → mostTransactionTypes (relabel S) = "debit") ∧
    (mostTransactionTypes S = "equal" → mostTransactionTypes (relabel S) = "equal") ∧
    (countType S "debit" = countType S "credit" → mostTransactionTypes S = "equal") ∧
    mostTransactionTypes [] = "equal" := by
  obtain ⟨hd, hc⟩ := mostTransactionTypes_cases S
  obtain ⟨hd', hc'⟩ := mostTransactionTypes_cases (relabel S)
  rw [countType_relabel_debit, countType_relabel_credit] at hd' hc'
  have hne1 : ("debit" : String) ≠ "equal" := by decide
  have hne2 : ("credit" : String) ≠ "equal" := by decide
  refine ⟨fun h => hc'.mpr (hd.mp h), fun h => hd'.mpr (hc.mp h), ?_, ?_, by decide⟩
  · intro h
    rcases mostTransactionTypes_values (relabel S) with h' | h' | h'
    · have := hc.mpr (hd'.mp h')
      rw [h] at this
      exact absurd this.symm hne2
    · have := hd.mpr (hc'.mp h')
      rw [h] at this
      exact absurd this.symm hne1
    · exact h'
  · intro heq
    rcases mostTransactionTypes_values S with h | h | h
    · have := hd.mp h; omega
    · have := hc.mp h; omega
    · exact h

/-- Witness of C12 on the scenario: two debit records against one credit record. -/
theorem mostTransactionTypes_symmetric_witness :
    mostTransactionTypes scenario = "debit" ∧ mostTransactionTypes (relabel scenario) = "credit" :=
  ⟨by decide, (mostTransactionTypes_symmetric scenario).1 (by decide)⟩

/-! ## Debit restrictions -/

theorem foldl_filter_step {α β : Type} (p : α → Bool) (f : β → α → β) (l : List α) :
    ∀ init : β, (l.filter p).foldl f init
      = l.foldl (fun acc a => if p a = true then f acc a else acc) init := by
  induction l with
  | nil => intro init; rfl
  | cons a rest ih =>
    intro init
    by_cases h : p a = true
    · simp [List.filter_cons, h, ih]
    · simp [List.filter_cons, h, ih]

/-- The counter object of the debit method is that of the general method on the debit
records. -/
theorem debitMonthCounts_eq (S : List Transaction) :
    debitMonthCounts S = monthCounts (getTransactionByType S "debit") := by
  unfold debitMonthCounts monthCounts getTransactionByType
  rw [foldl_filter_step]
  congr 1
  funext counts t
  by_cases h : t.transaction_type = "debit" <;> simp [h]

/-- C14: on a sequence with at least one debit record, `findMostDebitTransactionMonth`
returns a key, and it is the key `findMostTransactionsMonth` returns on the subsequence of the
debit records. -/
theorem findMostDebitTransactionMonth_eq (S : List Transaction)
    (hdebit : ∃ t ∈ S, t.transaction_type = "debit") :
    ∃ k, findMostDebitTransactionMonth S = .ok k ∧
      findMostTransactionsMonth (getTransactionByType S "debit") = .ok k := by
  have hne : getTransactionByType S "debit" ≠ [] := by
    obtain ⟨t, ht, hty⟩ := hdebit
    intro h
    have : t ∈ getTransactionByType S "debit" := by
      unfold getTransactionByType
      rw [List.mem_filter]
      exact ⟨ht, decide_eq_true hty⟩
    rw [h] at this
    simp at this
  obtain ⟨_, k, _, _, hres, _⟩ := findMostTransactionsMonth_spec _ hne
  refine ⟨k, ?_, hres⟩
  rw [← hres]
  unfold findMostDebitTransactionMonth findMostTransactionsMonth
  rw [debitMonthCounts_eq]

/-- Witness of C14 on the scenario, which has two debit records. -/
theorem findMostDebitTransactionMonth_eq_witness :
    ∃ k, findMostDebitTransactionMonth scenario = .ok k ∧
      findMostTransactionsMonth (getTransactionByType scenario "debit") = .ok k :=
  findMostDebitTransactionMonth_eq scenario ⟨mkTx 1 "debit" 50 march1 "A", by simp [scenario], rfl⟩

/-! ## getUniqueTransactionType -/

theorem newSet_append_singleton (xs : List String) (x : String) :
    newSet (xs ++ [x]) = setAdd (newSet xs) x := by
  unfold newSet
  rw [List.foldl_append, List.foldl_cons, List.foldl_nil]

/-- What `new Set(xs)` holds: no value twice, exactly the values of `xs`, in the order of
their first occurrences in `xs`. -/
theorem newSet_spec (xs : List String) :
    (newSet xs).Nodup ∧ (∀ a, a ∈ newSet xs ↔ a ∈ xs) ∧
    (∀ a b, a ∈ newSet xs → b ∈ newSet xs →
      ((newSet xs).indexOf a < (newSet xs).indexOf b ↔ xs.indexOf a < xs.indexOf b)) := by
  induction xs using List.reverseRecOn with
  | nil => simp [newSet]
  | append_singleton l x ih =>
    obtain ⟨hnd, hmem, hidx⟩ := ih
    rw [newSet_append_singleton]
    unfold setAdd
    by_cases hx : x ∈ newSet l
    · have hxl : x ∈ l := (hmem x).mp hx
      rw [if_pos hx]
      refine ⟨hnd, ?_, ?_⟩
      · intro a
        rw [hmem a, List.mem_append, List.mem_singleton]
        constructor
        · exact Or.inl
        · rintro (h | h)
          · exact h
          · rw [h]; exact hxl
      · intro a b ha hb
        rw [List.indexOf_append_of_mem ((hmem a).mp ha),
          List.indexOf_append_of_mem ((hmem b).mp hb)]
        exact hidx a b ha hb
    · have hxl : x ∉ l := fun h => hx ((hmem x).mpr h)
      rw [if_neg hx]
      refine ⟨?_, ?_, ?_⟩
      · rw [List.nodup_append]
        refine ⟨hnd, List.nodup_singleton x, ?_⟩
        intro a ha hax
        rw [List.mem_singleton] at hax
        rw [hax] at ha
        exact hx ha
      · intro a
        rw [List.mem_append, List.mem_append, hmem a]
      · intro a b ha hb
        rw [List.mem_append, List.mem_singleton] at ha hb
        have key : ∀ c, c ∈ newSet l →
            (newSet l ++ [x]).indexOf c = (newSet l).indexOf c ∧
            (l ++ [x]).indexOf c = l.indexOf c ∧
            (newSet l).indexOf c < (newSet l).length ∧ l.indexOf c < l.length := by
          intro c hc
          exact ⟨List.indexOf_append_of_mem hc, List.indexOf_append_of_mem ((hmem c).mp hc),
            List.indexOf_lt_length.mpr hc, List.indexOf_lt_length.mpr ((hmem c).mp hc)⟩
        have keyx : (newSet l ++ [x]).indexOf x = (newSet l).length ∧
            (l ++ [x]).indexOf x = l.length := by
          constructor
          · rw [List.indexOf_append_of_not_mem hx]; simp
          · rw [List.indexOf_append_of_not_mem hxl]; simp
        rcases ha with ha | ha <;> rcases hb with hb | hb
        · rw [(key a ha).1, (key b hb).1, (key a ha).2.1, (key b hb).2.1]
          exact hidx a b ha hb
        · subst hb
          rw [(key a ha).1, (key a ha).2.1, keyx.1, keyx.2]
          exact ⟨fun _ => (key a ha).2.2.2, fun _ => (key a ha).2.2.1⟩
        · subst ha
          rw [(key b hb).1, (key b hb).2.1, keyx.1, keyx.2]
          have h1 := (key b hb).2.2.1
          have h2 := (key b hb).2.2.2
          constructor <;> intro h <;> omega
        · subst ha; subst hb
          simp

/-- C15: `getUniqueTransactionType` returns a list without duplicates that holds a type value
exactly when some record has that type, the values ordered by their first occurrence in the
sequence. -/
theorem getUniqueTransactionType_spec (S : List Transaction) :
    (getUniqueTransactionType S).Nodup ∧
    (∀ ty, ty ∈ getUniqueTransactionType S ↔ ∃ t ∈ S, t.transaction_type = ty) ∧
    (∀ a b, a ∈ getUniqueTransactionType S → b ∈ getUniqueTransactionType S →
      ((getUniqueTransactionType S).indexOf a < (getUniqueTransactionType S).indexOf b ↔
        (S.map (fun t => t.transaction_type)).indexOf a
          < (S.map (fun t => t.transaction_type)).indexOf b)) := by
  obtain ⟨h1, h2, h3⟩ := newSet_spec (S.map (fun t => t.transaction_type))
  refine ⟨h1, ?_, h3⟩
  intro ty
  have := h2 ty
  rw [List.mem_map] at this
  exact this

/-- Witness of C15 on the scenario: debit occurs first, then credit. -/
theorem getUniqueTransactionType_witness :
    getUniqueTransactionType scenario = ["debit", "credit"] ∧
    ((getUniqueTransactionType scenario).indexOf "debit"
        < (getUniqueTransactionType scenario).indexOf "credit" ↔
      (scenario.map (fun t => t.transaction_type)).indexOf "debit"
        < (scenario.map (fun t => t.transaction_type)).indexOf "credit") :=
  ⟨by decide, (getUniqueTransactionType_spec scenario).2.2 "debit" "credit" (by decide)
    (by decide)⟩

/-! ## The filter queries -/

theorem isFilterOf_filter (p : Transaction → Bool) (P : Transaction → Prop)
    (hp : ∀ t, p t = true ↔ P t) (S : List Transaction) : IsFilterOf P S (S.filter p) := by
  obtain ⟨h1, h2, h3⟩ := filter_characterisation p S
  refine ⟨h1, ?_, ?_⟩
  · intro t
    rw [← hp t]
    exact h2 t
  · intro l hl hall
    exact h3 l hl (fun t ht => (hp t).mpr (hall t ht))

theorem JsNum.ge_iff (a b : JsNum) :
    JsNum.ge a b = true ↔ ∃ x y, a.toExtended = some x ∧ b.toExtended = some y ∧ y ≤ x := by
  cases a <;> cases b <;> simp [JsNum.ge, JsNum.toExtended]

theorem amountBetween_iff (min max : JsNum) (t : Transaction) :
    (t.transaction_amount.ge min && t.transaction_amount.le max) = true ↔
      amountBetween min max t := by
  unfold amountBetween JsNum.le
  rw [Bool.and_eq_true, JsNum.ge_iff, JsNum.ge_iff]
  constructor
  · rintro ⟨⟨a, lo, ha, hlo, h1⟩, ⟨hi, a', hhi, ha', h2⟩⟩
    rw [ha] at ha'
    cases ha'
    exact ⟨lo, a, hi, hlo, ha, hhi, h1, h2⟩
  · rintro ⟨lo, a, hi, hlo, ha, hhi, h1, h2⟩
    exact ⟨⟨a, lo, ha, hlo, h1⟩, ⟨hi, a, hhi, ha, h2⟩⟩

theorem datedBefore_iff (target : JsDate) (t : Transaction) :
    timeLt t.transaction_date.valueOf target.valueOf = true ↔ datedBefore target t := by
  unfold datedBefore
  rcases t.transaction_date.valueOf with _ | x <;> rcases target.valueOf with _ | d <;>
    simp [timeLt]

/-- C16: each filter query returns the order-preserving subsequence of the stored sequence
made of exactly the records that satisfy its condition: equal type, equal merchant, amount
within the inclusive bounds, date within the inclusive bounds, date strictly before the
target. The queries are functions of the stored sequence and do not write it. -/
theorem filter_queries_spec (S : List Transaction) :
    (∀ ty, IsFilterOf (fun t => t.transaction_type = ty) S (getTransactionByType S ty)) ∧
    (∀ name, IsFilterOf (fun t => t.merchant_name = name) S
      (getTransactionsByMerchant S name)) ∧
    (∀ min max, IsFilterOf (amountBetween min max) S
      (getTransactionsByAmountRange S min max)) ∧
    (∀ lo hi, IsFilterOf (inRange lo hi) S (getTransactionsInDateRange S lo hi)) ∧
    (∀ target, IsFilterOf (datedBefore target) S (getTransactionsBeforeDate S target)) ∧
    (∀ (a : ℚ) (t : Transaction), t ∈ S → t.transaction_amount = JsNum.fin a →
      ∀ min max : ℚ, (t ∈ getTransactionsByAmountRange S (JsNum.fin min) (JsNum.fin max) ↔
        min ≤ a ∧ a ≤ max)) := by
  refine ⟨?_, ?_, ?_, ?_, ?_, ?_⟩
  · intro ty
    exact isFilterOf_filter _ _ (fun t => decide_eq_true_iff) S
  · intro name
    exact isFilterOf_filter _ _ (fun t => decide_eq_true_iff) S
  · intro min max
    exact isFilterOf_filter _ _ (amountBetween_iff min max) S
  · intro lo hi
    exact isFilterOf_filter _ _ (inRange_iff lo hi) S
  · intro target
    exact isFilterOf_filter _ _ (datedBefore_iff target) S
  · intro a t ht ha min max
    unfold getTransactionsByAmountRange
    rw [List.mem_filter]
    simp [ht, ha, JsNum.ge, JsNum.le]

/-- Witness of C16 on the scenario: the amounts between 20 and 30, bounds included, are those
of the second and third records. -/
theorem filter_queries_witness :
    getTransactionsByAmountRange scenario (JsNum.fin 20) (JsNum.fin 30)
      = [mkTx 2 "credit" 30 march15 "B", mkTx 3 "debit" 20 april1 "A"] ∧
    IsFilterOf (amountBetween (JsNum.fin 20) (JsNum.fin 30)) scenario
      (getTransactionsByAmountRange scenario (JsNum.fin 20) (JsNum.fin 30)) :=
  ⟨by simp [getTransactionsByAmountRange, scenario, mkTx, JsNum.ge, JsNum.le]; norm_num,
    (filter_queries_spec scenario).2.2.1 _ _⟩

/-! ## The scenario -/

/-- C19: in `calculateTotalAmountByDate` a component supplied as 0 has the effect of a
component that is not supplied, whatever the other two are, and `(0, 0, 0)` gives
`calculateTotalAmount()`. -/
theorem calculateTotalAmountByDate_zero (S : List Transaction) :
    (∀ month day, calculateTotalAmountByDate S (some 0) month day
      = calculateTotalAmountByDate S none month day) ∧
    (∀ year day, calculateTotalAmountByDate S year (some 0) day
      = calculateTotalAmountByDate S year none day) ∧
    (∀ year month, calculateTotalAmountByDate S year month (some 0)
      = calculateTotalAmountByDate S year month none) ∧
    calculateTotalAmountByDate S (some 0) (some 0) (some 0) = calculateTotalAmount S ∧
    calculateTotalAmountByDate S none none none = calculateTotalAmount S := by
  refine ⟨?_, ?_, ?_, ?_, ?_⟩
  · intro month day; simp [calculateTotalAmountByDate, falsy]
  · intro year day; simp [calculateTotalAmountByDate, falsy]
  · intro year month; simp [calculateTotalAmountByDate, falsy]
  · simp [calculateTotalAmountByDate, calculateTotalAmount, falsy]
  · simp [calculateTotalAmountByDate, calculateTotalAmount, falsy]

end TransactionAnalyzer

namespace Ledger

/-! ## Identifiers of the ledger -/

/-- C18 (defect in the code): after two additions, the deletion of transaction 1 and a third
addition, the array holds two transactions with id 2: the new id is the length of the array
plus one, which the deletion has made equal to an id still in use. -/
theorem duplicate_id_after_delete :
    Reachable (run [.add (form 10), .add (form 20), .delete 1, .add (form 30)]) ∧
    (run [.add (form 10), .add (form 20), .delete 1, .add (form 30)]).map (fun t => t.id)
      = [2, 2] ∧
    ¬ ((run [.add (form 10), .add (form 20), .delete 1, .add (form 30)]).map
      (fun t => t.id)).Nodup := by
  have h : (run [.add (form 10), .add (form 20), .delete 1, .add (form 30)]).map
      (fun t => t.id) = [2, 2] := by decide
  refine ⟨⟨_, rfl⟩, h, ?_⟩
  rw [h]
  decide

end Ledger
